import Mathlib

/-!
Verification of the EchoLyrics core against its natural-language
specification.

The definitions below are a shallow embedding of the TypeScript sources:

* `src/core/parsers/StandardLrcParser.ts`   (timestamp extraction, layer grouping)
* `src/core/parsers/EnhancedLrcParser.ts`   (syllable markers)
* `src/core/services/ScoringService.ts`     (composite relevance score)
* `src/core/services/PlaybackSynchronizer.ts` (binary search)
* `src/core/utils/SearchQueryResolver.ts`   (query expansion / override detection)
* `src/core/services/LyricsSearcherService.ts` (provider fan-out)
* `src/core/services/LyricsManager.ts`      (selection controller)

Modelling conventions:

* JS numbers that only ever hold integers are modelled as `Int` (or `Nat`
  where the source can only produce non-negative values); fractional
  similarity arithmetic is modelled exactly over `ℚ`.  The timestamp
  computation `Math.round((minutes * 60 + seconds) * 1000)` always yields
  the exact integer `(mm * 60 + ss) * 1000 + frac_ms` (the exact value is
  an integer and the accumulated floating-point error is far below 1/2),
  so it is embedded as that integer.
* Optional TS string fields that are only ever used through JS
  truthiness are modelled as `Option String` where presence matters, and
  plain `String` (with `""` for absent) where `undefined` and `""` are
  observationally identical in the source.
* `Array.prototype.sort` (ES2019) is a stable sort; a stable sort with
  respect to a total preorder is unique, so it is embedded as
  `List.insertionSort` with the preorder induced by the comparator,
  which is structurally recursive and hence evaluates in the kernel.
-/

namespace EchoLyrics

/-- `Syllable` from `LyricsData.ts`: relative start time (ms, may be
negative for out-of-range markers), duration (ms) and text. -/
structure Syllable where
  startTime : Int
  duration : Int
  text : String
deriving DecidableEq, Repr

/-- `LyricsLine` from `LyricsData.ts`. -/
structure LyricsLine where
  startTime : Int
  text : String
  syllables : Option (List Syllable) := none
  layer : Nat
deriving DecidableEq, Repr

/-- Metadata mapping (`Record<string, string>`); a JS object literal keyed
by strings, modelled as an association list in insertion order. -/
abbrev MetaMap : Type := List (String × String)

/-- `metadata[key] = value` on a JS object: an existing key keeps its
position and gets the new value, a new key is appended. -/
def metaInsert (m : MetaMap) (k v : String) : MetaMap :=
  if (List.lookup k m).isSome then
    m.map (fun p => if p.1 = k then (k, v) else p)
  else
    m ++ [(k, v)]

/-- `LyricsData` from `LyricsData.ts`. -/
structure LyricsData where
  lines : List LyricsLine
  metadata : MetaMap
deriving DecidableEq

/-- `LyricResult` from `LyricResult.ts`.  The optional string fields are
used only through JS truthiness in the core, so `""` models `undefined`;
`duration?: number` is likewise only used through the truthy guard
`candidate.duration && candidate.duration > 0`, under which `undefined`
and `0` are observationally identical, so it is modelled as `Int` with
`0` for absent. -/
structure LyricResult where
  lyricText : String
  source : String
  score : Int
  id : String := ""
  title : String := ""
  artist : String := ""
  album : String := ""
  duration : Int := 0
deriving DecidableEq, Repr

/-- `searchAliases` attached to a `SongInformation` (consumed by
`ScoringService.calculateScore`).  An absent array is skipped by the
source's truthiness guard; an empty array passes the guard but the loop
body never runs, which is observationally the same, so both are `[]`
here when the alias object itself is present. -/
structure SearchAliases where
  title : List String := []
  artist : List String := []
deriving DecidableEq, Repr

/-- `SongInformation` from `SongInformation.ts` (`albumArt` carries no
behaviour in the core and is omitted). -/
structure SongInformation where
  title : String
  artists : List String
  album : String := ""
  lyrics : Option String := none
  duration : Int := 0
  sourceId : String := ""
  persistenceId : Option String := none
  isrc : Option String := none
  searchAliases : Option SearchAliases := none
deriving DecidableEq

/-- JS truthiness of an optional string: `undefined` and `""` are falsy. -/
def truthyOpt : Option String → Bool
  | none => false
  | some s => s ≠ ""

/-- JS `String.prototype.trim` restricted to the whitespace characters
appearing in this development (Lean's `Char.isWhitespace`: space, tab,
CR, LF).  Implemented on character lists because it must reduce in the
kernel. -/
def trimChars (cs : List Char) : List Char :=
  ((cs.dropWhile Char.isWhitespace).reverse.dropWhile Char.isWhitespace).reverse

/-! ## Stable sorting (model of `Array.prototype.sort`)

Every comparator in the sources has the form `(a, b) => key b - key a`
or `(a, b) => key a - key b` for an integer key, i.e. it sorts by a
total preorder; ES2019 `sort` is stable, and the stable sort for a total
preorder is unique, so `List.insertionSort` with the corresponding
relation is the model. -/

/-- `results.sort((a, b) => b.score - a.score)`: stable sort by score
descending. -/
def jsSortByScoreDesc (l : List LyricResult) : List LyricResult :=
  l.insertionSort (fun a b => b.score ≤ a.score)

instance scoreDescTotal : IsTotal LyricResult (fun a b => b.score ≤ a.score) :=
  ⟨fun a b => (le_total b.score a.score)⟩

instance scoreDescTrans : IsTrans LyricResult (fun a b => b.score ≤ a.score) :=
  ⟨fun _ _ _ hab hbc => le_trans hbc hab⟩

theorem jsSortByScoreDesc_sorted (l : List LyricResult) :
    List.Pairwise (fun a b => b.score ≤ a.score) (jsSortByScoreDesc l) :=
  List.sorted_insertionSort _ l

theorem jsSortByScoreDesc_perm (l : List LyricResult) :
    (jsSortByScoreDesc l).Perm l :=
  List.perm_insertionSort _ l

/-- Inserting an element that is unrelated to the filter predicate does
not disturb the filtered list. -/
theorem filter_orderedInsert_neg {α : Type} (r : α → α → Prop) [DecidableRel r]
    (p : α → Bool) (a : α) (l : List α) (hpa : p a = false) :
    (List.orderedInsert r a l).filter p = l.filter p := by
  induction l with
  | nil => simp [List.orderedInsert, hpa]
  | cons b t ih =>
    by_cases h : r a b
    · simp [List.orderedInsert, h, hpa]
    · by_cases hpb : p b
      all_goals simp [List.orderedInsert, h, hpa, hpb, ih]

/-- Inserting an element that is `r`-below every element satisfying the
filter predicate puts it at the head of the filtered list. -/
theorem filter_orderedInsert_pos {α : Type} (r : α → α → Prop) [DecidableRel r]
    (p : α → Bool) (a : α) (l : List α) (hpa : p a = true)
    (h : ∀ b, p b = true → r a b) :
    (List.orderedInsert r a l).filter p = a :: l.filter p := by
  induction l with
  | nil => simp [List.orderedInsert, hpa]
  | cons b t ih =>
    by_cases hr : r a b
    · simp [List.orderedInsert, hr, hpa]
    · have hpb : p b = false := by
        by_contra hb
        exact hr (h b (eq_true_of_ne_false hb))
      simp [List.orderedInsert, hr, hpb, ih]

/-- Stability of the sort model: if all elements satisfying `p` are
pairwise `r`-related in both directions (here: they share a key), the
filtered subsequence is untouched by sorting. -/
theorem filter_insertionSort {α : Type} (r : α → α → Prop) [DecidableRel r]
    (p : α → Bool) (l : List α)
    (h : ∀ a, p a = true → ∀ b, p b = true → r a b) :
    (List.insertionSort r l).filter p = l.filter p := by
  induction l with
  | nil => rfl
  | cons a t ih =>
    by_cases hpa : p a
    · rw [List.insertionSort,
        filter_orderedInsert_pos r p a _ hpa (fun b hb => h a hpa b hb), ih]
      simp [hpa]
    · rw [List.insertionSort,
        filter_orderedInsert_neg r p a _ (Bool.of_not_eq_true hpa), ih]
      simp [hpa]

/-! ## Similarity (spec §4.1)

`src/core/utils/Levenshtein.ts` itself is not among the provided
sources (only its test and its callers are), so `calculateSimilarity`
is modelled from the specification. -/

/-- Levenshtein edit distance, fuel-indexed so that it is structurally
recursive (every recursive call shrinks `xs.length + ys.length`, so any
fuel above that sum computes the distance). -/
def levFuel : Nat → List Char → List Char → Nat
  | 0, xs, ys => max xs.length ys.length
  | _ + 1, [], ys => ys.length
  | _ + 1, x :: xs, [] => (x :: xs).length
  | fuel + 1, x :: xs, y :: ys =>
    if x = y then levFuel fuel xs ys
    else 1 + min (levFuel fuel xs ys)
            (min (levFuel fuel (x :: xs) ys) (levFuel fuel xs (y :: ys)))

/-- Levenshtein edit distance on code-point sequences, with the standard
equal-head shortcut (which computes the same distance). -/
def levenshtein (xs ys : List Char) : Nat :=
  levFuel (xs.length + ys.length + 1) xs ys

theorem levFuel_fuel_irrel : ∀ f g xs ys, xs.length + ys.length < f →
    xs.length + ys.length < g → levFuel f xs ys = levFuel g xs ys := by
  intro f
  induction f with
  | zero => omega
  | succ f ihf =>
    intro g xs ys hf hg
    match g, xs, ys with
    | 0, _, _ => omega
    | g + 1, [], ys => rfl
    | g + 1, x :: xs, [] => rfl
    | g + 1, x :: xs, y :: ys =>
      simp only [List.length_cons] at hf hg
      simp only [levFuel]
      rw [ihf g xs ys (by omega) (by omega),
        ihf g (x :: xs) ys (by simp; omega) (by simp; omega),
        ihf g xs (y :: ys) (by simp; omega) (by simp; omega)]

theorem levenshtein_nil_left (ys : List Char) : levenshtein [] ys = ys.length := rfl

theorem levenshtein_nil_right (xs : List Char) : levenshtein xs [] = xs.length := by
  cases xs <;> rfl

theorem levFuel_big (f : Nat) (xs ys : List Char)
    (h : xs.length + ys.length < f) : levFuel f xs ys = levenshtein xs ys :=
  levFuel_fuel_irrel f (xs.length + ys.length + 1) xs ys h (by omega)

theorem levenshtein_cons_cons (x y : Char) (xs ys : List Char) :
    levenshtein (x :: xs) (y :: ys) =
      if x = y then levenshtein xs ys
      else 1 + min (levenshtein xs ys)
              (min (levenshtein (x :: xs) ys) (levenshtein xs (y :: ys))) := by
  conv_lhs => rw [levenshtein]
  rw [show (x :: xs).length + (y :: ys).length + 1 = (xs.length + ys.length + 2) + 1 from by
    simp only [List.length_cons]; omega]
  simp only [levFuel]
  rw [levFuel_big _ _ _ (by omega),
    levFuel_big _ _ _ (by simp only [List.length_cons]; omega),
    levFuel_big _ _ _ (by simp only [List.length_cons]; omega)]

/-- Modelled from the spec: `src/core/utils/Levenshtein.ts` is missing
from the sources.  Spec §4.1: "Unicode-normalize both strings to
canonical decomposed form, strip combining marks, lower-case".  Every
string this development evaluates on is ASCII, where canonical
decomposition followed by stripping combining marks is the identity, so
normalization is modelled as code-point lower-casing. -/
def normalizeChars (s : String) : List Char :=
  s.toList.map Char.toLower

/-- Modelled from the spec: `src/core/utils/Levenshtein.ts` is missing
from the sources.  Spec §4.1: return
`1 − distance / max(len(a'), len(b'))`, or `1.0` if both are empty. -/
def calculateSimilarity (a b : String) : ℚ :=
  let a' := normalizeChars a
  let b' := normalizeChars b
  let maxLen := max a'.length b'.length
  if maxLen = 0 then 1 else 1 - (levenshtein a' b' : ℚ) / (maxLen : ℚ)

theorem levenshtein_self (xs : List Char) : levenshtein xs xs = 0 := by
  induction xs with
  | nil => simp [levenshtein_nil_left]
  | cons x t ih => rw [levenshtein_cons_cons, if_pos rfl, ih]

theorem levenshtein_le_max (xs ys : List Char) :
    levenshtein xs ys ≤ max xs.length ys.length := by
  induction xs generalizing ys with
  | nil => simp [levenshtein_nil_left]
  | cons x xs ihx =>
    induction ys with
    | nil => simp [levenshtein_nil_right]
    | cons y ys ihy =>
      rw [levenshtein_cons_cons]
      by_cases h : x = y
      · rw [if_pos h]
        calc levenshtein xs ys ≤ max xs.length ys.length := ihx ys
          _ ≤ max (x :: xs).length (y :: ys).length := by
            simp only [List.length_cons]
            omega
      · rw [if_neg h]
        have h1 := ihx ys
        simp only [List.length_cons]
        omega

theorem calculateSimilarity_self (s : String) : calculateSimilarity s s = 1 := by
  simp only [calculateSimilarity]
  split
  · rfl
  · rw [levenshtein_self]
    simp

theorem calculateSimilarity_nonneg (a b : String) :
    0 ≤ calculateSimilarity a b := by
  simp only [calculateSimilarity]
  split
  · norm_num
  · rename_i h
    rw [sub_nonneg, div_le_one]
    · exact_mod_cast levenshtein_le_max _ _
    · have : 0 < max (normalizeChars a).length (normalizeChars b).length :=
        Nat.pos_of_ne_zero h
      exact_mod_cast this

theorem calculateSimilarity_le_one (a b : String) :
    calculateSimilarity a b ≤ 1 := by
  simp only [calculateSimilarity]
  split
  · norm_num
  · rename_i h
    have hx : (0 : ℚ) ≤ (levenshtein (normalizeChars a) (normalizeChars b) : ℚ) /
        ((max (normalizeChars a).length (normalizeChars b).length : ℕ) : ℚ) := by
      positivity
    exact sub_le_self 1 hx

/-! ## ScoringService (`src/core/services/ScoringService.ts`) -/

/-- The `tokenize` closure in `calculateArtistSimilarity`: lower-case,
unify the separators `&` and `/` into commas, split on runs of commas
and spaces, trim, drop empties.  (Splitting at every separator character
and dropping empty pieces is the same as splitting on separator runs;
the pieces contain no whitespace, so the `.trim()` is the identity.) -/
def tokenize (s : String) : List String :=
  let cs := s.toList.map Char.toLower
  let cs := cs.map (fun c => if c = '&' ∨ c = '/' then ',' else c)
  let pieces := cs.foldr
    (fun c acc =>
      if c = ',' ∨ c = ' ' then [] :: acc
      else match acc with
        | t :: ts => (c :: t) :: ts
        | [] => [[c]])
    [[]]
  (pieces.map (fun p => String.mk (trimChars p))).filter (fun t => t ≠ "")

/-- `ScoringService.calculateArtistSimilarity`.  JS `Set` keeps first
insertions in order, modelled by `List.dedup`... note `List.dedup` keeps
the last occurrence, so first-occurrence dedup is spelled out; only the
element set and the order of iteration matter here. -/
def dedupFirst (l : List String) : List String :=
  l.foldl (fun acc x => if acc.contains x then acc else acc ++ [x]) []

def calculateArtistSimilarity (targetArtists : List String)
    (candidateArtist : String) : ℚ :=
  let targetTokens := dedupFirst (targetArtists.flatMap tokenize)
  let candidateTokens := dedupFirst (tokenize candidateArtist)
  let matchCount := (targetTokens.filter (fun t => candidateTokens.contains t)).length
  let unionSize := (dedupFirst (targetTokens ++ candidateTokens)).length
  if unionSize = 0 then 0
  else if matchCount = targetTokens.length ∨ matchCount = candidateTokens.length then 1
  else
    let jaccard : ℚ := (matchCount : ℚ) / (unionSize : ℚ)
    if jaccard > 1/2 then jaccard
    else max jaccard
      (calculateSimilarity (String.intercalate " " targetArtists) candidateArtist)

/-- `ScoringService.calculateDurationScore`. -/
def calculateDurationScore (diffMs : Int) : Int :=
  if diffMs ≤ 1000 then 10
  else if diffMs ≤ 3000 then 7
  else if diffMs ≤ 5000 then 4
  else if diffMs ≤ 10000 then 0
  else if diffMs ≤ 20000 then -5
  else -10

/-- `ScoringService.calculateScoreInternal`: weighted sum of title,
artist, album and duration components, rounded (`Math.round` rounds half
towards `+∞`, exactly Mathlib's `round`). -/
def calculateScoreInternal (targetTitle : String) (targetArtists : List String)
    (target : SongInformation) (candidate : LyricResult) : Int :=
  let titlePart : ℚ :=
    if candidate.title ≠ "" then calculateSimilarity targetTitle candidate.title * 40
    else 0
  let artistPart : ℚ :=
    if candidate.artist ≠ "" then calculateArtistSimilarity targetArtists candidate.artist * 30
    else 0
  let albumPart : ℚ :=
    if target.album ≠ "" ∧ candidate.album ≠ "" then
      calculateSimilarity target.album candidate.album * 20
    else 0
  let durationPart : ℚ :=
    if 0 < target.duration ∧ 0 < candidate.duration then
      (calculateDurationScore (target.duration - candidate.duration).natAbs : ℚ)
    else 0
  round (titlePart + artistPart + albumPart + durationPart)

/-- `ScoringService.calculateScore`: the maximum of the primary score
and every alias combination (`if (score > maxScore) maxScore = score`
folds to `max`). -/
def calculateScore (target : SongInformation) (candidate : LyricResult) : Int :=
  let primary := calculateScoreInternal target.title target.artists target candidate
  match target.searchAliases with
  | none => primary
  | some al =>
    let s1 := al.title.foldl
      (fun m t => max m (calculateScoreInternal t target.artists target candidate)) primary
    let s2 := al.artist.foldl
      (fun m a => max m (calculateScoreInternal target.title [a] target candidate)) s1
    al.title.foldl
      (fun m t => al.artist.foldl
        (fun m' a => max m' (calculateScoreInternal t [a] target candidate)) m) s2

/-! ## StandardLrcParser (`src/core/parsers/StandardLrcParser.ts`)

The two regexes
`TIMESTAMP_REGEX = /\[(\d{2}):(\d{2}(?:\.\d{2,3})?)\]/g` and
`SYLLABLE_REGEX = /<(\d{2}):(\d{2}(?:\.\d{2,3})?)>/g`
differ only in the bracket pair, so the matcher is parameterised by it.
Because `TIMESTAMP_REGEX` is a global regex, `.test()` advances its
`lastIndex` (resetting it to 0 on failure), `.matchAll()` starts a clone
at the current `lastIndex` without writing it back, and
`.replace(..., '')` scans the whole string and leaves `lastIndex` at 0;
the parser therefore threads an explicit `lastIndex` through the lines
of one `parse` call (a fresh call starts at 0). -/

def digitVal (c : Char) : Nat := c.toNat - 48

def digit2 (a b : Char) : Nat := 10 * digitVal a + digitVal b

/-- Match `⟦dd:dd(.d{2,3})?⟧` (with the given brackets) at the head of
the character list, returning the timestamp in milliseconds and the
match length.  The greedy fraction `(?:\.\d{2,3})?` first tries three
fraction digits, then two, then none, each time requiring the closing
bracket next — exactly the regex backtracking order.  The value is the
exact integer `Math.round((mm * 60 + ss.frac) * 1000)` computes. -/
def tsMatchAt (openC closeC : Char) : List Char → Option (Nat × Nat)
  | o :: d1 :: d2 :: sep :: d3 :: d4 :: rest =>
    if o = openC ∧ d1.isDigit ∧ d2.isDigit ∧ sep = ':' ∧ d3.isDigit ∧ d4.isDigit then
      let base := (digit2 d1 d2 * 60 + digit2 d3 d4) * 1000
      match rest with
      | [] => none
      | e :: rest2 =>
        if e = closeC then some (base, 7)
        else if e = '.' then
          match rest2 with
          | f1 :: f2 :: rest3 =>
            if f1.isDigit ∧ f2.isDigit then
              match rest3 with
              | [] => none
              | f3 :: rest4 =>
                if f3.isDigit then
                  match rest4 with
                  | g :: _ => if g = closeC then some (base + digit2 f1 f2 * 10 + digitVal f3, 11) else none
                  | [] => none
                else if f3 = closeC then some (base + digit2 f1 f2 * 10, 10)
                else none
            else none
          | _ => none
        else none
    else none
  | _ => none

/-- Global-regex scan: starting at absolute position `pos` (the regex
`lastIndex`), collect every match as `(index, timeMs, length)`,
continuing after each match and advancing one character past failures.
`suffix` is the input from `pos` on; the fuel argument only
discharges termination (any fuel above the suffix length suffices). -/
def scanTs (openC closeC : Char) : Nat → List Char → Nat → List (Nat × Nat × Nat)
  | 0, _, _ => []
  | _ + 1, [], _ => []
  | fuel + 1, c :: rest, pos =>
    match tsMatchAt openC closeC (c :: rest) with
    | some (t, len) => (pos, t, len) :: scanTs openC closeC fuel ((c :: rest).drop len) (pos + len)
    | none => scanTs openC closeC fuel rest (pos + 1)

/-- `matchAll` of the global regex with `lastIndex = start`. -/
def matchAllFrom (openC closeC : Char) (cs : List Char) (start : Nat) : List (Nat × Nat × Nat) :=
  scanTs openC closeC (cs.length + 1) (cs.drop start) start

/-- One traversal of `String.prototype.replace(regex, '')`: drop every
match, keep every other character.  It walks the input exactly like
`scanTs` from position 0. -/
def removeTs (openC closeC : Char) : Nat → List Char → List Char
  | 0, cs => cs
  | _ + 1, [] => []
  | fuel + 1, c :: rest =>
    match tsMatchAt openC closeC (c :: rest) with
    | some (_, len) => removeTs openC closeC fuel ((c :: rest).drop len)
    | none => c :: removeTs openC closeC fuel rest

def removeAll (openC closeC : Char) (cs : List Char) : List Char :=
  removeTs openC closeC (cs.length + 1) cs

/-- `regex.test(line)` on the global regex with the given `lastIndex`:
`some newLastIndex` on success (`lastIndex` moves past the match),
`none` on failure (`lastIndex` resets to 0 at the call site). -/
def regexTestFrom (openC closeC : Char) (cs : List Char) (lastIndex : Nat) : Option Nat :=
  match (matchAllFrom openC closeC cs lastIndex).head? with
  | some m => some (m.1 + m.2.2)
  | none => none

/-- Match `META_REGEX = /\[([a-zA-Z]+):([^\]]+)\]/` at the head: an
alphabetic key, a colon, a non-empty run of non-`]` characters, `]`.
(The maximal runs are what the greedy `+` accepts; shrinking either run
can never repair a failed match, so maximal runs are equivalent.) -/
def metaAt (cs : List Char) : Option (List Char × List Char) :=
  match cs with
  | '[' :: rest =>
    let key := rest.takeWhile Char.isAlpha
    let rest2 := rest.dropWhile Char.isAlpha
    if key ≠ [] then
      match rest2 with
      | ':' :: rest3 =>
        let val := rest3.takeWhile (fun c => c ≠ ']')
        let rest4 := rest3.dropWhile (fun c => c ≠ ']')
        if val ≠ [] then
          match rest4 with
          | ']' :: _ => some (key, val)
          | _ => none
        else none
      | _ => none
    else none
  | _ => none

/-- First match of the (non-global) metadata regex anywhere in the line. -/
def findMeta : Nat → List Char → Option (List Char × List Char)
  | 0, _ => none
  | _ + 1, [] => none
  | fuel + 1, c :: rest =>
    match metaAt (c :: rest) with
    | some kv => some kv
    | none => findMeta fuel rest

/-- `split(/\r?\n/)` followed by per-line `.trim()` is observationally
the same as splitting on `'\n'` alone, because the trim also removes a
trailing `'\r'`; the split is modelled on `'\n'`. -/
def splitNewlines (cs : List Char) : List (List Char) :=
  cs.foldr
    (fun c acc =>
      if c = '\n' then [] :: acc
      else match acc with
        | h :: t => (c :: h) :: t
        | [] => [[c]])
    [[]]

/-- One entry pushed into `parsedEntries` (`rawIndex` is carried by the
source but never read afterwards). -/
structure PEntry where
  time : Nat
  text : String
  rawIndex : Nat
deriving DecidableEq, Repr

/-- The mutable state of one `StandardLrcParser.parse` call: the pushed
entries, the metadata object, and the `lastIndex` of the shared global
`TIMESTAMP_REGEX`. -/
structure ParseState where
  entries : List PEntry
  metadata : MetaMap
  lastIndex : Nat
deriving DecidableEq

/-- Lines 43–60 of `StandardLrcParser.parse`: `matchAll` (from the
current `lastIndex`), and if any timestamps matched, strip every
timestamp (a full rescan that resets `lastIndex` to 0), trim, and push
one entry per match. -/
def extractTimestamps (st : ParseState) (cs : List Char) (rawIndex : Nat) : ParseState :=
  match matchAllFrom '[' ']' cs st.lastIndex with
  | [] => st
  | ms =>
    let text := String.mk (trimChars (removeAll '[' ']' cs))
    { st with
      entries := st.entries ++ ms.map (fun m => ⟨m.2.1, text, rawIndex⟩),
      lastIndex := 0 }

/-- The `forEach` body of `StandardLrcParser.parse` for one raw line. -/
def processLine (st : ParseState) (rawLine : List Char) (rawIndex : Nat) : ParseState :=
  let line := trimChars rawLine
  if line = [] then st
  else
    match findMeta (line.length + 1) line with
    | some (key, val) =>
      match regexTestFrom '[' ']' line st.lastIndex with
      | none =>
        { st with
          metadata := metaInsert st.metadata (String.mk key) (String.mk (trimChars val)),
          lastIndex := 0 }
      | some newLast => extractTimestamps { st with lastIndex := newLast } line rawIndex
    | none => extractTimestamps st line rawIndex

/-- `parsedEntries.sort((a, b) => a.time - b.time)`: stable ascending. -/
def sortEntries (l : List PEntry) : List PEntry :=
  l.insertionSort (fun a b => a.time ≤ b.time)

instance timeAscTotal : IsTotal PEntry (fun a b => a.time ≤ b.time) :=
  ⟨fun a b => le_total a.time b.time⟩

instance timeAscTrans : IsTrans PEntry (fun a b => a.time ≤ b.time) :=
  ⟨fun _ _ _ hab hbc => le_trans hab hbc⟩

/-- Lines 73–95 of `StandardLrcParser.parse`: walk the sorted entries;
an entry within 1 ms of the current group time continues the group with
an incremented layer, anything else opens a new group at layer 0.  The
group time starts at `-1`. -/
def assignLayers : Int → Nat → List PEntry → List LyricsLine
  | _, _, [] => []
  | gt, layer, e :: es =>
    if ((e.time : Int) - gt).natAbs < 1 then
      ⟨(e.time : Int), e.text, none, layer + 1⟩ :: assignLayers gt (layer + 1) es
    else
      ⟨(e.time : Int), e.text, none, 0⟩ :: assignLayers (e.time : Int) 0 es

/-- `StandardLrcParser.parse`. -/
def stdParse (rawText : String) : LyricsData :=
  let rawLines := splitNewlines rawText.toList
  let st := rawLines.enum.foldl (fun st p => processLine st p.2 p.1) ⟨[], [], 0⟩
  ⟨assignLayers (-1) 0 (sortEntries st.entries), st.metadata⟩

/-! ## EnhancedLrcParser (`src/core/parsers/EnhancedLrcParser.ts`)

`SYLLABLE_REGEX` is also global and static, but on every path through
one `forEach` iteration its `lastIndex` is 0 again afterwards
(a failed `.test` resets it, and on success `parseSyllables` resets it
explicitly before `matchAll` and the `.replace` leaves it at 0), so
each line is processed from `lastIndex = 0`. -/

/-- `EnhancedLrcParser.parseSyllables`: one syllable per marker; text is
the slice up to the next marker (or the end of the line), the start
time is stored relative to the line, and the duration is the time to
the next marker clamped at 0 (the last one is 0). -/
def buildSyllables : List (Nat × Nat × Nat) → Int → List Char → List Syllable
  | [], _, _ => []
  | (idx, t, len) :: rest, lineStart, cs =>
    let contentStart := idx + len
    let contentEnd := match rest with
      | (idx2, _, _) :: _ => idx2
      | [] => cs.length
    let txt := String.mk ((cs.drop contentStart).take (contentEnd - contentStart))
    let dur : Int := match rest with
      | (_, t2, _) :: _ => max 0 ((t2 : Int) - (t : Int))
      | [] => 0
    ⟨(t : Int) - lineStart, dur, txt⟩ :: buildSyllables rest lineStart cs

/-- The `forEach` body of `EnhancedLrcParser.parse` for one line. -/
def enhanceLine (line : LyricsLine) : LyricsLine :=
  let cs := line.text.toList
  match matchAllFrom '<' '>' cs 0 with
  | [] => line
  | ms =>
    { line with
      syllables := some (buildSyllables ms line.startTime cs),
      text := String.mk (trimChars (removeAll '<' '>' cs)) }

/-- `EnhancedLrcParser.parse`: run the standard parser, then rewrite
each line that contains syllable markers. -/
def enhParse (rawText : String) : LyricsData :=
  let basic := stdParse rawText
  { basic with lines := basic.lines.map enhanceLine }

/-! ## PlaybackSynchronizer (`src/core/services/PlaybackSynchronizer.ts`) -/

def dummyLine : LyricsLine := ⟨0, "", none, 0⟩

/-- `lines[i]` (every access in the loop is in bounds, so the default is
never read). -/
def lineAt (lines : List LyricsLine) (i : Nat) : LyricsLine :=
  lines.getD i dummyLine

/-- The `while (low <= high)` loop of `findLineIndex`.
`Math.floor((low + high) / 2)` is floor division, which is `Int` `/`
(Euclidean division) for the positive divisor 2.  The fuel argument
only discharges termination: the interval shrinks every iteration, so
any fuel above `high + 1 - low` suffices. -/
def bsLoop (lines : List LyricsLine) (t : Int) : Nat → Int → Int → Int → Int
  | 0, _, _, result => result
  | fuel + 1, low, high, result =>
    if low ≤ high then
      let mid := (low + high) / 2
      if (lineAt lines mid.toNat).startTime ≤ t then
        bsLoop lines t fuel (mid + 1) high mid
      else
        bsLoop lines t fuel low (mid - 1) result
    else result

/-- `PlaybackSynchronizer.findLineIndex`. -/
def findLineIndex (lyrics : LyricsData) (currentTimeMs : Int) : Int :=
  let lines := lyrics.lines
  if lines.length = 0 then -1
  else bsLoop lines currentTimeMs (lines.length + 1) 0 ((lines.length : Int) - 1) (-1)

/-! ## SearchQueryResolver (`src/core/utils/SearchQueryResolver.ts`,
the revision with manual-override detection) -/

structure QueryPair where
  title : String
  artist : String
deriving DecidableEq, Repr

/-- `/[一-龥]/.test(str)`. -/
def hasCJK (s : String) : Bool :=
  s.toList.any (fun c => 0x4e00 ≤ c.toNat ∧ c.toNat ≤ 0x9fa5)

/-- `/[぀-ゟ゠-ヿ]/.test(str)`. -/
def hasKana (s : String) : Bool :=
  s.toList.any (fun c =>
    (0x3040 ≤ c.toNat ∧ c.toNat ≤ 0x309f) ∨ (0x30a0 ≤ c.toNat ∧ c.toNat ≤ 0x30ff))

/-- `getPriority` inside `sortMetadataByLanguage`: Chinese-dominant 3,
Japanese 2, other 1, computed on `"title artist"`. -/
def langPriority (q : QueryPair) : Nat :=
  let text := q.title ++ " " ++ q.artist
  if hasCJK text ∧ ¬ hasKana text then 3
  else if hasKana text then 2
  else 1

/-- `candidates.sort((a, b) => getPriority(b) - getPriority(a))`. -/
def sortMetadataByLanguage (l : List QueryPair) : List QueryPair :=
  l.insertionSort (fun a b => langPriority b ≤ langPriority a)

instance langDescTotal : IsTotal QueryPair (fun a b => langPriority b ≤ langPriority a) :=
  ⟨fun a b => le_total (langPriority b) (langPriority a)⟩

instance langDescTrans : IsTrans QueryPair (fun a b => langPriority b ≤ langPriority a) :=
  ⟨fun _ _ _ hab hbc => le_trans hbc hab⟩

/-- `SearchQueryResolver.resolveQueries`.  `mbMetadata` is the outcome
of the awaited registry promise for `song.isrc`; a rejected promise and
a resolved empty list are observationally identical in the source (both
leave `uniqueQueries` empty, the rejection through the `catch`), so
failures are passed as `[]`.  The floats `maxSim` and `0.8` are exact
rationals here. -/
def resolveQueries (song : SongInformation) (mbMetadata : List QueryPair) :
    List QueryPair :=
  let uniqueQueries :=
    if song.isrc.isSome ∧ mbMetadata ≠ [] then sortMetadataByLanguage mbMetadata
    else []
  let isManualOverride :=
    if uniqueQueries ≠ [] then
      (uniqueQueries.foldl (fun m q => max m (calculateSimilarity song.title q.title)) 0)
        < 4/5
    else True
  if isManualOverride ∨ uniqueQueries = [] then
    let manualQuery : QueryPair := ⟨song.title, song.artists.headD ""⟩
    if uniqueQueries.any (fun q => q.title = manualQuery.title ∧ q.artist = manualQuery.artist) then
      uniqueQueries
    else manualQuery :: uniqueQueries
  else uniqueQueries

instance (song : SongInformation) (uniqueQueries : List QueryPair) :
    Decidable (if uniqueQueries ≠ [] then
      (uniqueQueries.foldl (fun m q => max m (calculateSimilarity song.title q.title)) 0)
        < 4/5
    else True) := by
  split <;> infer_instance

/-! ## LyricsSearcherService (`src/core/services/LyricsSearcherService.ts`)

One provider task either resolves with a candidate list or rejects;
the rejection is absorbed by the task's `catch`, which returns `[]`.
`Promise.all` collects the (independently progressing) tasks in
registration order, so the aggregate is a pure function of the list of
task outcomes. -/

/-- The body of one search task: score the batch in place and sort it
by score descending; a failing task contributes an empty batch. -/
def processBatch (song : SongInformation) :
    Except Unit (List LyricResult) → List LyricResult
  | .error _ => []
  | .ok results =>
    jsSortByScoreDesc (results.map (fun r => { r with score := calculateScore song r }))

/-- The scored batch of one provider before its per-batch sort (the
"candidate batch" the spec's ordering guarantee concatenates). -/
def scoredBatch (song : SongInformation) :
    Except Unit (List LyricResult) → List LyricResult
  | .error _ => []
  | .ok results => results.map (fun r => { r with score := calculateScore song r })

/-- `LyricsSearcherService.search` as a function of the provider
outcomes: flatten all batches and sort by score descending (stable). -/
def searcherSearch (song : SongInformation)
    (outcomes : List (Except Unit (List LyricResult))) : List LyricResult :=
  jsSortByScoreDesc ((outcomes.map (processBatch song)).flatten)

/-! ## LyricsManager (`src/core/services/LyricsManager.ts`) -/

structure CacheEntry where
  results : List LyricResult
  selectedId : Option String
deriving DecidableEq

/-- The mutable fields of `LyricsManager` together with the
`localStorage` cache it owns (`loadCache`/`saveCache` round-trip a
string-keyed object). -/
structure ManagerState where
  currentLyrics : Option LyricsData := none
  lastResults : List LyricResult := []
  currentSongKey : String := ""
  cache : List (String × CacheEntry) := []
deriving DecidableEq

/-- `cache[key] = {results, selectedId}` followed by a store write. -/
def cacheInsert (cache : List (String × CacheEntry)) (k : String) (e : CacheEntry) :
    List (String × CacheEntry) :=
  if (List.lookup k cache).isSome then
    cache.map (fun p => if p.1 = k then (k, e) else p)
  else
    cache ++ [(k, e)]

def digitsVal (ds : List Char) : Nat :=
  ds.foldl (fun n c => 10 * n + digitVal c) 0

/-- `Number(s)` for the strings produced by `String(score)` (always a
decimal integer, possibly negative; non-numeric strings never reach the
score comparison, and `Number("") = 0` matches the `|| 0` default). -/
def jsNumber (s : String) : Int :=
  match s.toList with
  | [] => 0
  | '-' :: ds => if ds ≠ [] ∧ ds.all Char.isDigit then - (digitsVal ds : Int) else 0
  | ds => if ds.all Char.isDigit then (digitsVal ds : Int) else 0

/-- `LyricsManager.selectLyric`: validate the index, parse the chosen
candidate with the enhanced parser, inject source/score metadata and
fill title/artist if empty, publish, and optionally persist. -/
def selectLyric (st : ManagerState) (index : Int) (saveSelection : Bool) :
    Bool × ManagerState :=
  if index < 0 ∨ (st.lastResults.length : Int) ≤ index then (false, st)
  else
    let best := st.lastResults.getD index.toNat { lyricText := "", source := "", score := 0 }
    let data := enhParse best.lyricText
    let md := data.metadata
    let md := metaInsert md "source" best.source
    let md := metaInsert md "score" (toString best.score)
    let oldTitle := (List.lookup "title" md).getD ""
    let md := metaInsert md "title" (if oldTitle ≠ "" then oldTitle else best.title)
    let oldArtist := (List.lookup "artist" md).getD ""
    let md := metaInsert md "artist" (if oldArtist ≠ "" then oldArtist else best.artist)
    let data := { data with metadata := md }
    let st := { st with currentLyrics := some data }
    if saveSelection ∧ st.currentSongKey ≠ "" ∧ best.id ≠ "" then
      (true, { st with cache := cacheInsert st.cache st.currentSongKey ⟨st.lastResults, some best.id⟩ })
    else (true, st)

/-- The `onPartial` callback registered by `loadLyricsForSong` (lines
231–264): drop stale batches, merge new candidates by id, re-sort by
score descending, and auto-select the top candidate whenever its score
exceeds the published one (`best` is `lastResults[0]`, so `indexOf`
yields 0). -/
def streamStep (persistenceKey : String) (st : ManagerState)
    (incrementalResults : List LyricResult) : ManagerState :=
  if st.currentSongKey ≠ persistenceKey then st
  else
    let existingIds := st.lastResults.map (fun r => r.id)
    let newOnes := incrementalResults.filter (fun r => ¬ existingIds.contains r.id)
    if newOnes.isEmpty then st
    else
      let merged := jsSortByScoreDesc (st.lastResults ++ newOnes)
      let st := { st with lastResults := merged }
      match merged with
      | [] => st
      | best :: _ =>
        let currentScore : Int := match st.currentLyrics with
          | some d =>
            let v := (List.lookup "score" d.metadata).getD ""
            if v ≠ "" then jsNumber v else 0
          | none => 0
        if currentScore < best.score then (selectLyric st 0 true).2
        else st

/-- The published score after a callback, as the controller itself
reads it back (`currentLyrics?.metadata?.score`). -/
def publishedScore (st : ManagerState) : Option String :=
  st.currentLyrics.bind (fun d => List.lookup "score" d.metadata)

/-- Feed a sequence of incremental batches through the callback,
recording the published score after each one. -/
def streamTrace (persistenceKey : String) (st : ManagerState)
    (batches : List (List LyricResult)) : List (Option String) :=
  (batches.foldl
    (fun (acc : ManagerState × List (Option String)) batch =>
      let st' := streamStep persistenceKey acc.1 batch
      (st', acc.2 ++ [publishedScore st']))
    (st, [])).2

/-- `loadLyricsForSong` options (the `||`-defaulted limit: `0` falls
back to 15). -/
structure LoadOptions where
  ignoreCache : Bool := false
  limit : Option Nat := none
  localFileContent : Option String := none

/-- Outcome of the synchronous phase of `loadLyricsForSong` (everything
before `await this.searcher.search`): either an early `return`, or the
search is reached with the state built so far. -/
inductive LoadOutcome where
  | returned (value : Bool) (st : ManagerState)
  | searching (st : ManagerState) (persistenceKey searchKey : String)
deriving DecidableEq

def LoadOutcome.retVal : LoadOutcome → Option Bool
  | .returned v _ => some v
  | .searching _ _ _ => none

def LoadOutcome.state : LoadOutcome → ManagerState
  | .returned _ st => st
  | .searching st _ _ => st

/-- Step 2 of the pipeline (lines 214–228): consult the search cache,
else fall through to the actual search. -/
def loadCheckSearchCache (st : ManagerState) (opts : LoadOptions)
    (persistenceKey searchKey : String) : LoadOutcome :=
  if ¬ opts.ignoreCache then
    match List.lookup searchKey st.cache with
    | some cachedSearch =>
      let st := { st with lastResults := cachedSearch.results }
      if st.lastResults.length ≠ 0 then
        let r := selectLyric st 0 false
        .returned r.1 r.2
      else .returned false st
    | none => .searching st persistenceKey searchKey
  else .searching st persistenceKey searchKey

/-- The synchronous phase of `LyricsManager.loadLyricsForSong` (lines
69–228): key computation, embedded-lyrics check (priority 1, early
publish), local-file check (priority 0 in the comments, but reached
only afterwards and without an early publish), persistence restore, and
the search cache.  `now` threads `Date.now()` for the synthetic ids. -/
def loadPhase1 (st0 : ManagerState) (song : SongInformation) (opts : LoadOptions)
    (now : Nat) : LoadOutcome :=
  let st := { st0 with lastResults := [] }
  let limit := match opts.limit with
    | some n => if n = 0 then 15 else n
    | none => 15
  let persistenceKey := match song.persistenceId with
    | some p => if p ≠ "" then p else song.title ++ "|" ++ String.intercalate "," song.artists
    | none => song.title ++ "|" ++ String.intercalate "," song.artists
  let st := { st with currentSongKey := persistenceKey }
  let artistPart := if song.artists.headD "" ≠ "" then "|" ++ song.artists.headD "" else ""
  let searchKey := "SEARCH:" ++ song.title ++ artistPart ++ "|LIMIT:" ++ toString limit
  let cache := st.cache
  let noSelection : Bool := match List.lookup persistenceKey cache with
    | some e => ¬ truthyOpt e.selectedId
    | none => true
  if truthyOpt song.lyrics ∧ ¬ opts.ignoreCache ∧ noSelection then
    let embedded : LyricResult :=
      ⟨song.lyrics.getD "", "Embedded (ID3)", 100, "embedded_" ++ toString now,
        song.title, String.intercalate ", " song.artists, "", song.duration⟩
    let st := { st with lastResults := [embedded] }
    let r := selectLyric st 0 false
    .returned r.1 r.2
  else
    let st :=
      if truthyOpt opts.localFileContent ∧ ¬ opts.ignoreCache ∧ noSelection then
        let localR : LyricResult :=
          ⟨opts.localFileContent.getD "", "Local File", 101, "local_" ++ toString now,
            song.title, String.intercalate ", " song.artists, "", song.duration⟩
        { st with lastResults := localR :: st.lastResults }
      else st
    let restoredEntry : Option CacheEntry :=
      if ¬ opts.ignoreCache then
        match List.lookup persistenceKey cache with
        | some entry => if truthyOpt entry.selectedId then some entry else none
        | none => none
      else none
    match restoredEntry with
    | some entry =>
      let restoredResults := entry.results
      let hasEmbedded := restoredResults.any (fun r => r.source = "Embedded (ID3)")
      let restoredResults :=
        if truthyOpt song.lyrics ∧ ¬ hasEmbedded then
          -- `"embedded_" + song.persistenceId` stringifies a missing id as "undefined"
          (⟨song.lyrics.getD "", "Embedded (ID3)", 100,
            "embedded_" ++ (song.persistenceId.getD "undefined"),
            song.title, String.intercalate ", " song.artists, "",
            song.duration⟩ : LyricResult) :: restoredResults
        else restoredResults
      let hasLocal := restoredResults.any (fun r => r.source = "Local File")
      let restoredResults :=
        if truthyOpt opts.localFileContent ∧ ¬ hasLocal then
          (⟨opts.localFileContent.getD "", "Local File", 101,
            "local_" ++ (song.persistenceId.getD "undefined"),
            song.title, String.intercalate ", " song.artists, "",
            song.duration⟩ : LyricResult) :: restoredResults
        else restoredResults
      let st := { st with lastResults := restoredResults }
      let sid := entry.selectedId.getD ""
      let idx := restoredResults.findIdx (fun r => r.id = sid)
      if idx < restoredResults.length then
        let r := selectLyric st (idx : Int) false
        .returned r.1 r.2
      else loadCheckSearchCache st opts persistenceKey searchKey
    | none => loadCheckSearchCache st opts persistenceKey searchKey

/-! ## Parser invariants: sortedness (C4) and layer grouping (C5) -/

theorem assignLayers_map_startTime : ∀ (es : List PEntry) (gt : Int) (layer : Nat),
    (assignLayers gt layer es).map (fun l => l.startTime) = es.map (fun e => (e.time : Int)) := by
  intro es
  induction es with
  | nil => intro gt layer; rfl
  | cons e es ih =>
    intro gt layer
    rw [assignLayers]
    split
    · simp only [List.map_cons, ih]
    · simp only [List.map_cons, ih]

theorem sortEntries_pairwise (l : List PEntry) :
    List.Pairwise (fun a b : PEntry => a.time ≤ b.time) (sortEntries l) :=
  List.sorted_insertionSort _ l

theorem stdParse_lines_pairwise (s : String) :
    List.Pairwise (fun a b : LyricsLine => a.startTime ≤ b.startTime)
      (stdParse s).lines := by
  show List.Pairwise _ (assignLayers (-1) 0 (sortEntries _))
  have hmap := assignLayers_map_startTime (sortEntries
    ((splitNewlines s.toList).enum.foldl (fun st p => processLine st p.2 p.1)
      ⟨[], [], 0⟩).entries) (-1) 0
  have hsorted := sortEntries_pairwise
    ((splitNewlines s.toList).enum.foldl (fun st p => processLine st p.2 p.1)
      ⟨[], [], 0⟩).entries
  have hcast : List.Pairwise (fun a b : Int => a ≤ b)
      ((sortEntries _).map (fun e => (e.time : Int))) :=
    (List.pairwise_map).mpr (hsorted.imp (fun h => by exact_mod_cast h))
  rw [← hmap] at hcast
  exact (List.pairwise_map).mp hcast

theorem enhanceLine_startTime (l : LyricsLine) :
    (enhanceLine l).startTime = l.startTime := by
  rw [enhanceLine]
  split <;> rfl

theorem enhParse_lines_pairwise (s : String) :
    List.Pairwise (fun a b : LyricsLine => a.startTime ≤ b.startTime)
      (enhParse s).lines := by
  show List.Pairwise _ ((stdParse s).lines.map enhanceLine)
  refine (List.pairwise_map).mpr ((stdParse_lines_pairwise s).imp ?_)
  intro a b h
  rw [enhanceLine_startTime, enhanceLine_startTime]
  exact h

/-- Relation between consecutive produced lines: equal start time
continues a layer group, anything else restarts at layer 0. -/
def layerStep (a b : LyricsLine) : Prop :=
  b.layer = if b.startTime = a.startTime then a.layer + 1 else 0

theorem assignLayers_chain : ∀ (es : List PEntry) (prev : LyricsLine),
    List.Chain' layerStep (prev :: assignLayers prev.startTime prev.layer es) := by
  intro es
  induction es with
  | nil => intro prev; simp [assignLayers]
  | cons e es ih =>
    intro prev
    rw [assignLayers]
    split
    · rename_i hin
      have heq : (e.time : Int) = prev.startTime := by omega
      refine List.chain'_cons.mpr ⟨?_, ?_⟩
      · show layerStep prev ⟨(e.time : Int), e.text, none, prev.layer + 1⟩
        unfold layerStep
        simp [heq]
      · have := ih ⟨(e.time : Int), e.text, none, prev.layer + 1⟩
        simpa [heq] using this
    · rename_i hout
      have hne : (e.time : Int) ≠ prev.startTime := by omega
      refine List.chain'_cons.mpr ⟨?_, ?_⟩
      · show layerStep prev ⟨(e.time : Int), e.text, none, 0⟩
        unfold layerStep
        simp [hne]
      · exact ih ⟨(e.time : Int), e.text, none, 0⟩

theorem assignLayers_head_layer (es : List PEntry) :
    ((assignLayers (-1) 0 es).head?.elim True (fun l => l.layer = 0)) ∧
      List.Chain' layerStep (assignLayers (-1) 0 es) := by
  cases es with
  | nil => simp [assignLayers]
  | cons e es =>
    rw [assignLayers]
    have hout : ¬ ((e.time : Int) - (-1)).natAbs < 1 := by omega
    rw [if_neg hout]
    constructor
    · simp
    · exact assignLayers_chain es ⟨(e.time : Int), e.text, none, 0⟩

/-- C4: For every input string, the sequence of lines returned by the
standard LRC parser is sorted non-decreasingly by `startTime`, and so
is the sequence returned by the enhanced parser (which runs the
standard parser first and preserves every line's start time). -/
theorem c4_parser_lines_sorted (s : String) :
    List.Pairwise (fun a b : LyricsLine => a.startTime ≤ b.startTime) (stdParse s).lines ∧
    List.Pairwise (fun a b : LyricsLine => a.startTime ≤ b.startTime) (enhParse s).lines :=
  ⟨stdParse_lines_pairwise s, enhParse_lines_pairwise s⟩

/-- C5: In the standard parser's output, the first line of the
time-sorted list has layer 0, and each later line's layer is the
previous line's layer plus 1 when its start time is within 1 ms of the
previous group's time (for these integer times: equal to the previous
line's start time), and 0 otherwise — so lines sharing a timestamp
carry distinct, contiguous layer indices starting at 0. -/
theorem c5_layer_grouping (s : String) :
    ((stdParse s).lines.head?.elim True (fun l => l.layer = 0)) ∧
      List.Chain' layerStep (stdParse s).lines :=
  assignLayers_head_layer _

/-! ## Binary search specification (C7) -/

/-- Start-time order on indexed access, under sortedness. -/
theorem lineAt_mono {lines : List LyricsLine}
    (hs : List.Pairwise (fun a b : LyricsLine => a.startTime ≤ b.startTime) lines)
    {i j : Nat} (hij : i ≤ j) (hj : j < lines.length) :
    (lineAt lines i).startTime ≤ (lineAt lines j).startTime := by
  rcases Nat.eq_or_lt_of_le hij with rfl | hlt
  · exact le_refl _
  · have hi : i < lines.length := lt_trans hlt hj
    have := (List.pairwise_iff_getElem (R := fun a b : LyricsLine => a.startTime ≤ b.startTime)).mp
      hs i j hi hj hlt
    simpa [lineAt, List.getD_eq_getElem?_getD, List.getElem?_eq_getElem, hi, hj] using this

theorem bsLoop_spec {lines : List LyricsLine} {t : Int}
    (hs : List.Pairwise (fun a b : LyricsLine => a.startTime ≤ b.startTime) lines) :
    ∀ (fuel : Nat) (low high result : Int),
      (high + 1 - low).toNat < fuel →
      0 ≤ low →
      high < lines.length →
      -1 ≤ result → result < low → result ≤ high →
      (∀ i : Nat, i < lines.length → (i : Int) < low →
        ((lineAt lines i).startTime ≤ t ↔ (i : Int) ≤ result)) →
      (∀ i : Nat, i < lines.length → high < (i : Int) →
        t < (lineAt lines i).startTime) →
      (-1 ≤ bsLoop lines t fuel low high result ∧
        bsLoop lines t fuel low high result < lines.length ∧
        ∀ i : Nat, i < lines.length →
          ((lineAt lines i).startTime ≤ t ↔ (i : Int) ≤ bsLoop lines t fuel low high result)) := by
  intro fuel
  induction fuel with
  | zero => omega
  | succ fuel ih =>
    intro low high result hfuel hlow0 hhigh hres1 hres2 hres3 hinvlow hinvhigh
    rw [bsLoop]
    by_cases hlh : low ≤ high
    · rw [if_pos hlh]
      set mid := (low + high) / 2 with hmid
      have hmidlow : low ≤ mid := by omega
      have hmidhigh : mid ≤ high := by omega
      have hmid0 : 0 ≤ mid := by omega
      have hmidlen : mid < lines.length := by omega
      have hmidlenN : mid.toNat < lines.length := by omega
      have hmidnat : ((mid.toNat : Nat) : Int) = mid := by omega
      by_cases hcmp : (lineAt lines mid.toNat).startTime ≤ t
      · rw [if_pos hcmp]
        refine ih (mid + 1) high mid (by omega) (by omega) hhigh (by omega) (by omega)
          hmidhigh ?_ hinvhigh
        intro i hi hilow
        constructor
        · intro _
          omega
        · intro _
          have : (lineAt lines i).startTime ≤ (lineAt lines mid.toNat).startTime :=
            lineAt_mono hs (by omega) hmidlenN
          exact le_trans this hcmp
      · rw [if_neg hcmp]
        refine ih low (mid - 1) result (by omega) hlow0 (by omega) hres1 hres2 (by omega)
          hinvlow ?_
        intro i hi himid
        have : (lineAt lines mid.toNat).startTime ≤ (lineAt lines i).startTime :=
          lineAt_mono hs (by omega) hi
        omega
    · rw [if_neg hlh]
      refine ⟨hres1, by omega, ?_⟩
      intro i hi
      by_cases hil : (i : Int) < low
      · exact hinvlow i hi hil
      · have hgt := hinvhigh i hi (by omega)
        constructor
        · intro hle; omega
        · intro hle; omega

/-- C7: For lyrics whose lines are sorted non-decreasingly by start
time, `findLineIndex` returns the largest index whose start time is at
most `t` (characterised by: index `i` qualifies iff `i ≤ result`), the
result always lies in `[-1, len-1]`, and it is `-1` exactly when the
list is empty or `t` is below the first line's start time. -/
theorem c7_findLineIndex_spec (data : LyricsData) (t : Int)
    (hs : List.Pairwise (fun a b : LyricsLine => a.startTime ≤ b.startTime) data.lines) :
    (-1 ≤ findLineIndex data t ∧ findLineIndex data t < data.lines.length) ∧
    (∀ i : Nat, i < data.lines.length →
      ((lineAt data.lines i).startTime ≤ t ↔ (i : Int) ≤ findLineIndex data t)) ∧
    (data.lines = [] → findLineIndex data t = -1) ∧
    (∀ l0 ls, data.lines = l0 :: ls → (findLineIndex data t = -1 ↔ t < l0.startTime)) := by
  by_cases hemp : data.lines.length = 0
  · have hnil : data.lines = [] := List.length_eq_zero.mp hemp
    have hfeq : findLineIndex data t = -1 := by
      simp only [findLineIndex]
      rw [if_pos hemp]
    rw [hfeq]
    refine ⟨⟨le_refl _, by omega⟩, ?_, fun _ => rfl, ?_⟩
    · intro i hi; omega
    · intro l0 ls h; rw [hnil] at h; cases h
  · have hspec := bsLoop_spec (t := t) hs (data.lines.length + 1) 0 ((data.lines.length : Int) - 1) (-1)
      (by omega) (by omega) (by omega) (by omega) (by omega) (by omega)
      (by intro i hi hneg; omega)
      (by intro i hi hgt; omega)
    have hfeq : findLineIndex data t =
        bsLoop data.lines t (data.lines.length + 1) 0 ((data.lines.length : Int) - 1) (-1) := by
      simp only [findLineIndex]
      rw [if_neg hemp]
    rw [hfeq]
    refine ⟨⟨hspec.1, hspec.2.1⟩, hspec.2.2, fun h => absurd (congrArg List.length h) (by simpa using hemp), ?_⟩
    · intro l0 ls hcons
      have h0 : 0 < data.lines.length := Nat.pos_of_ne_zero hemp
      have hiff := hspec.2.2 0 h0
      have hat : lineAt data.lines 0 = l0 := by
        simp [lineAt, hcons]
      rw [hat] at hiff
      constructor
      · intro hm1
        rw [hm1] at hiff
        by_contra hlt
        have := hiff.mp (by omega)
        omega
      · intro hlt
        have h1 := hspec.1
        by_contra hne
        have hge : (0 : Int) ≤
            bsLoop data.lines t (data.lines.length + 1) 0 ((data.lines.length : Int) - 1) (-1) := by
          omega
        have := hiff.mpr (by exact_mod_cast hge)
        omega

/-- The synchroniser scenario data: lines at 1000, 2000, 3000 ms. -/
def s5data : LyricsData :=
  ⟨[⟨1000, "a", none, 0⟩, ⟨2000, "b", none, 0⟩, ⟨3000, "c", none, 0⟩], []⟩

/-- Witness for C7 at the spec's synchroniser scenario (t = 1500). -/
theorem c7_findLineIndex_spec_witness :
    (List.Pairwise (fun a b : LyricsLine => a.startTime ≤ b.startTime) s5data.lines) ∧
    ((-1 ≤ findLineIndex s5data 1500 ∧ findLineIndex s5data 1500 < s5data.lines.length) ∧
      (∀ i : Nat, i < s5data.lines.length →
        ((lineAt s5data.lines i).startTime ≤ 1500 ↔ (i : Int) ≤ findLineIndex s5data 1500)) ∧
      (s5data.lines = [] → findLineIndex s5data 1500 = -1) ∧
      (∀ l0 ls, s5data.lines = l0 :: ls →
        (findLineIndex s5data 1500 = -1 ↔ 1500 < l0.startTime))) :=
  ⟨by decide, c7_findLineIndex_spec s5data 1500 (by decide)⟩

/-! ## Aggregator ordering (C9) -/

theorem filter_jsSortByScoreDesc (l : List LyricResult) (sc : Int) :
    (jsSortByScoreDesc l).filter (fun r => decide (r.score = sc)) =
      l.filter (fun r => decide (r.score = sc)) := by
  refine filter_insertionSort _ _ _ ?_
  intro a ha b hb
  have ha' : a.score = sc := of_decide_eq_true ha
  have hb' : b.score = sc := of_decide_eq_true hb
  rw [ha', hb']

theorem filter_processBatch (song : SongInformation)
    (o : Except Unit (List LyricResult)) (sc : Int) :
    (processBatch song o).filter (fun r => decide (r.score = sc)) =
      (scoredBatch song o).filter (fun r => decide (r.score = sc)) := by
  cases o with
  | error e => rfl
  | ok results => exact filter_jsSortByScoreDesc _ sc

/-- C9: For every family of provider outcomes, the aggregator's result
is sorted by score descending; ties keep the arrival order, i.e. for
every score the sub-sequence with that score equals the corresponding
sub-sequence of the concatenation of the providers' scored batches; and
a provider whose search rejects contributes an empty batch, so deleting
it from the outcome list leaves the result unchanged.  (The `search`
promise itself never rejects: every task catches its provider's
failure, which the embedding reflects by being total over `Except`
outcomes.) -/
theorem c9_searcher_ordering (song : SongInformation)
    (outcomes : List (Except Unit (List LyricResult))) :
    List.Pairwise (fun a b : LyricResult => b.score ≤ a.score)
      (searcherSearch song outcomes) ∧
    (∀ sc : Int,
      (searcherSearch song outcomes).filter (fun r => decide (r.score = sc)) =
        ((outcomes.map (scoredBatch song)).flatten).filter (fun r => decide (r.score = sc))) ∧
    (∀ pre post, searcherSearch song (pre ++ .error () :: post) =
        searcherSearch song (pre ++ post)) := by
  refine ⟨List.sorted_insertionSort _ _, ?_, ?_⟩
  · intro sc
    rw [searcherSearch, filter_jsSortByScoreDesc, List.filter_flatten,
      List.filter_flatten, List.map_map, List.map_map]
    congr 1
    refine List.map_congr_left ?_
    intro o _
    exact filter_processBatch song o sc
  · intro pre post
    simp only [searcherSearch, List.map_append, List.map_cons, List.flatten_append,
      List.flatten_cons, processBatch, List.nil_append]

/-! ## Query resolver fallback (C8) -/

theorem foldl_max_lt {c : ℚ} (f : QueryPair → ℚ) :
    ∀ (l : List QueryPair) (m : ℚ), m < c → (∀ q ∈ l, f q < c) →
      l.foldl (fun m q => max m (f q)) m < c := by
  intro l
  induction l with
  | nil =>
    intro m hm _
    simpa using hm
  | cons q l ih =>
    intro m hm hall
    rw [List.foldl_cons]
    exact ih _ (max_lt hm (hall q (by simp))) (fun x hx => hall x (by simp [hx]))

theorem mem_sortMetadataByLanguage {q : QueryPair} {l : List QueryPair} :
    q ∈ sortMetadataByLanguage l ↔ q ∈ l :=
  (List.perm_insertionSort _ l).mem_iff

/-- C8: `resolveQueries` always returns a non-empty sequence, and
whenever the registry lookup failed or returned no results
(`mbMetadata = []`, which also covers a missing ISRC) or every registry
candidate's title is less than 0.8-similar to the song title, the first
returned pair is `{song.title, song.artists[0] or ""}`. -/
theorem c8_resolveQueries_fallback (song : SongInformation)
    (mbMetadata : List QueryPair) :
    resolveQueries song mbMetadata ≠ [] ∧
    ((mbMetadata = [] ∨
        ∀ q ∈ mbMetadata, calculateSimilarity song.title q.title < 4/5) →
      (resolveQueries song mbMetadata).head? =
        some ⟨song.title, song.artists.headD ""⟩) := by
  simp only [resolveQueries]
  by_cases hcond : song.isrc.isSome = true ∧ mbMetadata ≠ []
  · simp only [if_pos hcond]
    have hperm := List.perm_insertionSort
      (fun a b : QueryPair => langPriority b ≤ langPriority a) mbMetadata
    have hune : sortMetadataByLanguage mbMetadata ≠ [] := by
      intro h
      rw [sortMetadataByLanguage] at h
      rw [h] at hperm
      exact hcond.2 hperm.symm.eq_nil
    simp only [if_pos hune]
    have hmem : ∀ q ∈ sortMetadataByLanguage mbMetadata, q ∈ mbMetadata :=
      fun q hq => mem_sortMetadataByLanguage.mp hq
    by_cases hov : (sortMetadataByLanguage mbMetadata).foldl
        (fun m q => max m (calculateSimilarity song.title q.title)) 0 < 4/5
    · simp only [if_pos (Or.inl hov)]
      by_cases hany : ((sortMetadataByLanguage mbMetadata).any
          (fun q => decide (q.title = song.title ∧ q.artist = song.artists.headD ""))) = true
      · simp only [if_pos hany]
        refine ⟨hune, ?_⟩
        intro hyp
        exfalso
        have hall : ∀ q ∈ mbMetadata, calculateSimilarity song.title q.title < 4/5 := by
          rcases hyp with h | h
          · exact absurd h hcond.2
          · exact h
        obtain ⟨q, hq, hq2⟩ := List.any_eq_true.mp hany
        have hq2' := of_decide_eq_true hq2
        have hsim := hall q (hmem q hq)
        rw [hq2'.1, calculateSimilarity_self] at hsim
        norm_num at hsim
      · simp only [if_neg (show ¬ (((sortMetadataByLanguage mbMetadata).any (fun q => decide (q.title = song.title ∧ q.artist = song.artists.headD ""))) = true) from by simpa using hany)]
        exact ⟨by simp, fun _ => rfl⟩
    · have hnov : ¬ ((sortMetadataByLanguage mbMetadata).foldl
          (fun m q => max m (calculateSimilarity song.title q.title)) 0 < 4/5 ∨
          sortMetadataByLanguage mbMetadata = []) := by
        intro h
        rcases h with h | h
        · exact hov h
        · exact hune h
      simp only [if_neg hnov]
      refine ⟨hune, ?_⟩
      intro hyp
      exfalso
      have hall : ∀ q ∈ mbMetadata, calculateSimilarity song.title q.title < 4/5 := by
        rcases hyp with h | h
        · exact absurd h hcond.2
        · exact h
      refine hov (foldl_max_lt _ _ 0 (by norm_num) ?_)
      intro q hq
      exact hall q (hmem q hq)
  · simp only [if_neg hcond]
    norm_num

/-- The override-detection scenario: no ISRC (registry yields nothing),
song title "Completely Different", primary artist "X". -/
def c8song : SongInformation :=
  { title := "Completely Different", artists := ["X"], sourceId := "1" }

/-- Witness for C8: with no registry results the resolver still returns
a non-empty list headed by the fallback pair. -/
theorem c8_resolveQueries_fallback_witness :
    resolveQueries c8song [] ≠ [] ∧
      (resolveQueries c8song []).head? = some ⟨"Completely Different", "X"⟩ :=
  ⟨(c8_resolveQueries_fallback c8song []).1,
   (c8_resolveQueries_fallback c8song []).2 (Or.inl rfl)⟩

/-! ## Engine score bounds (C10) -/

theorem dedupFirst_loop_mem (x : String) :
    ∀ (l acc : List String),
      (x ∈ l.foldl (fun acc y => if acc.contains y then acc else acc ++ [y]) acc ↔
        x ∈ acc ∨ x ∈ l) := by
  intro l
  induction l with
  | nil => intro acc; simp
  | cons y l ih =>
    intro acc
    rw [List.foldl_cons]
    by_cases hy : acc.contains y
    · rw [if_pos hy]
      rw [ih]
      have hymem : y ∈ acc := by
        rw [List.contains_iff_exists_mem_beq] at hy
        obtain ⟨z, hz, hbeq⟩ := hy
        rwa [show y = z from by simpa using hbeq]
      constructor
      · rintro (h | h)
        · exact Or.inl h
        · exact Or.inr (List.mem_cons_of_mem y h)
      · rintro (h | h)
        · exact Or.inl h
        · rcases List.mem_cons.mp h with rfl | h
          · exact Or.inl hymem
          · exact Or.inr h
    · rw [if_neg hy]
      rw [ih]
      simp only [List.mem_append, List.mem_singleton, List.mem_cons]
      tauto

theorem mem_dedupFirst (x : String) (l : List String) :
    x ∈ dedupFirst l ↔ x ∈ l := by
  rw [dedupFirst, dedupFirst_loop_mem]
  simp

theorem dedupFirst_loop_nodup :
    ∀ (l acc : List String), acc.Nodup →
      (l.foldl (fun acc y => if acc.contains y then acc else acc ++ [y]) acc).Nodup := by
  intro l
  induction l with
  | nil => intro acc h; simpa using h
  | cons y l ih =>
    intro acc h
    rw [List.foldl_cons]
    by_cases hy : acc.contains y
    · rw [if_pos hy]; exact ih acc h
    · rw [if_neg hy]
      refine ih (acc ++ [y]) ?_
      rw [List.nodup_append]
      refine ⟨h, List.nodup_singleton y, ?_⟩
      intro a ha hb
      rw [List.mem_singleton] at hb
      subst hb
      exact absurd (List.contains_iff_exists_mem_beq.mpr ⟨a, ha, by simp⟩) hy

theorem nodup_dedupFirst (l : List String) : (dedupFirst l).Nodup :=
  dedupFirst_loop_nodup l [] List.nodup_nil

theorem nodup_subset_length {l₁ l₂ : List String} (h1 : l₁.Nodup) (hsub : l₁ ⊆ l₂) :
    l₁.length ≤ l₂.length := by
  calc l₁.length = l₁.toFinset.card := (List.toFinset_card_of_nodup h1).symm
    _ ≤ l₂.toFinset.card := Finset.card_le_card (fun a ha => by
        rw [List.mem_toFinset] at *
        exact hsub ha)
    _ ≤ l₂.length := l₂.toFinset_card_le

theorem calculateArtistSimilarity_bounds (targetArtists : List String)
    (candidateArtist : String) :
    0 ≤ calculateArtistSimilarity targetArtists candidateArtist ∧
      calculateArtistSimilarity targetArtists candidateArtist ≤ 1 := by
  simp only [calculateArtistSimilarity]
  split
  · norm_num
  · split
    · norm_num
    · rename_i hu _
      have hmle : ((dedupFirst (targetArtists.flatMap tokenize)).filter
          (fun t => (dedupFirst (tokenize candidateArtist)).contains t)).length ≤
          (dedupFirst (dedupFirst (targetArtists.flatMap tokenize) ++
            dedupFirst (tokenize candidateArtist))).length := by
        calc _ ≤ (dedupFirst (targetArtists.flatMap tokenize)).length :=
              List.length_filter_le _ _
          _ ≤ _ := by
            refine nodup_subset_length (nodup_dedupFirst _) ?_
            intro a ha
            rw [mem_dedupFirst]
            exact List.mem_append_left _ ha
      have hupos : (0 : ℚ) < ((dedupFirst (dedupFirst (targetArtists.flatMap tokenize) ++
          dedupFirst (tokenize candidateArtist))).length : ℚ) := by
        exact_mod_cast Nat.pos_of_ne_zero hu
      have hjac0 : (0 : ℚ) ≤
          (((dedupFirst (targetArtists.flatMap tokenize)).filter
            (fun t => (dedupFirst (tokenize candidateArtist)).contains t)).length : ℚ) /
          ((dedupFirst (dedupFirst (targetArtists.flatMap tokenize) ++
            dedupFirst (tokenize candidateArtist))).length : ℚ) := by positivity
      have hjac1 :
          (((dedupFirst (targetArtists.flatMap tokenize)).filter
            (fun t => (dedupFirst (tokenize candidateArtist)).contains t)).length : ℚ) /
          ((dedupFirst (dedupFirst (targetArtists.flatMap tokenize) ++
            dedupFirst (tokenize candidateArtist))).length : ℚ) ≤ 1 := by
        rw [div_le_one hupos]
        exact_mod_cast hmle
      split
      · exact ⟨hjac0, hjac1⟩
      · constructor
        · exact le_max_of_le_left hjac0
        · exact max_le hjac1 (calculateSimilarity_le_one _ _)

theorem calculateDurationScore_bounds (d : Int) :
    -10 ≤ calculateDurationScore d ∧ calculateDurationScore d ≤ 10 := by
  unfold calculateDurationScore
  split_ifs <;> norm_num

theorem round_bounds {q : ℚ} (h1 : -10 ≤ q) (h2 : q ≤ 100) :
    -10 ≤ round q ∧ round q ≤ 100 := by
  rw [round_eq]
  constructor
  · calc (-10 : Int) = ⌊(-19 : ℚ)/2⌋ := by norm_num
      _ ≤ ⌊q + 1/2⌋ := Int.floor_le_floor (by linarith)
  · calc ⌊q + 1/2⌋ ≤ ⌊(201 : ℚ)/2⌋ := Int.floor_le_floor (by linarith)
      _ = 100 := by norm_num

theorem calculateScoreInternal_bounds (targetTitle : String)
    (targetArtists : List String) (target : SongInformation)
    (candidate : LyricResult) :
    -10 ≤ calculateScoreInternal targetTitle targetArtists target candidate ∧
      calculateScoreInternal targetTitle targetArtists target candidate ≤ 100 := by
  simp only [calculateScoreInternal]
  have ht : 0 ≤ (if candidate.title ≠ "" then
        calculateSimilarity targetTitle candidate.title * 40 else 0) ∧
      (if candidate.title ≠ "" then
        calculateSimilarity targetTitle candidate.title * 40 else 0) ≤ 40 := by
    split
    · exact ⟨mul_nonneg (calculateSimilarity_nonneg _ _) (by norm_num),
        mul_le_of_le_one_left (by norm_num) (calculateSimilarity_le_one _ _)⟩
    · norm_num
  have ha : 0 ≤ (if candidate.artist ≠ "" then
        calculateArtistSimilarity targetArtists candidate.artist * 30 else 0) ∧
      (if candidate.artist ≠ "" then
        calculateArtistSimilarity targetArtists candidate.artist * 30 else 0) ≤ 30 := by
    split
    · exact ⟨mul_nonneg (calculateArtistSimilarity_bounds _ _).1 (by norm_num),
        mul_le_of_le_one_left (by norm_num) (calculateArtistSimilarity_bounds _ _).2⟩
    · norm_num
  have hal : 0 ≤ (if target.album ≠ "" ∧ candidate.album ≠ "" then
        calculateSimilarity target.album candidate.album * 20 else 0) ∧
      (if target.album ≠ "" ∧ candidate.album ≠ "" then
        calculateSimilarity target.album candidate.album * 20 else 0) ≤ 20 := by
    split
    · exact ⟨mul_nonneg (calculateSimilarity_nonneg _ _) (by norm_num),
        mul_le_of_le_one_left (by norm_num) (calculateSimilarity_le_one _ _)⟩
    · norm_num
  have hd : (-10 : ℚ) ≤ (if 0 < target.duration ∧ 0 < candidate.duration then
        ((calculateDurationScore (target.duration - candidate.duration).natAbs : Int) : ℚ) else 0) ∧
      (if 0 < target.duration ∧ 0 < candidate.duration then
        ((calculateDurationScore (target.duration - candidate.duration).natAbs : Int) : ℚ) else 0) ≤ 10 := by
    split
    · constructor
      · exact_mod_cast (calculateDurationScore_bounds _).1
      · exact_mod_cast (calculateDurationScore_bounds _).2
    · norm_num
  exact round_bounds (by linarith [ht.1, ha.1, hal.1, hd.1])
    (by linarith [ht.2, ha.2, hal.2, hd.2])

/-- `[lo, hi]`-boundedness is preserved by folding `max` with a bounded
function, and by any step that preserves it. -/
theorem foldl_preserve {β : Type} (P : Int → Prop) (step : Int → β → Int)
    (hstep : ∀ m b, P m → P (step m b)) :
    ∀ (l : List β) (init : Int), P init → P (l.foldl step init) := by
  intro l
  induction l with
  | nil => intro init h; simpa using h
  | cons b l ih =>
    intro init h
    rw [List.foldl_cons]
    exact ih _ (hstep init b h)

theorem calculateScore_bounds (target : SongInformation) (candidate : LyricResult) :
    -10 ≤ calculateScore target candidate ∧ calculateScore target candidate ≤ 100 := by
  simp only [calculateScore]
  set P : Int → Prop := fun x => -10 ≤ x ∧ x ≤ 100 with hP
  have hint : ∀ tt ta, P (calculateScoreInternal tt ta target candidate) :=
    fun tt ta => calculateScoreInternal_bounds tt ta target candidate
  have hmax : ∀ (m : Int) tt ta, P m → P (max m (calculateScoreInternal tt ta target candidate)) := by
    intro m tt ta hm
    exact ⟨le_max_of_le_left hm.1, max_le hm.2 (hint tt ta).2⟩
  match target.searchAliases with
  | none => exact hint _ _
  | some al =>
    refine foldl_preserve P _ ?_ al.title _ ?_
    · intro m t hm
      refine foldl_preserve P _ ?_ al.artist m hm
      intro m' a hm'
      exact hmax m' t [a] hm'
    · refine foldl_preserve P _ ?_ al.artist _ ?_
      · intro m a hm
        exact hmax m target.title [a] hm
      · refine foldl_preserve P _ ?_ al.title _ ?_
        · intro m t hm
          exact hmax m t target.artists hm
        · exact hint _ _

/-- C10: For every target song and every candidate the scoring engine
returns an integer in `[-10, 100]`; consequently, in any list of
engine-scored provider candidates, none strictly exceeds the embedded
candidate's synthetic score 100 and none reaches the local-file
candidate's synthetic score 101, so after sorting by score descending
those two are never outranked. -/
theorem c10_engine_score_bounds (target : SongInformation) (candidate : LyricResult) :
    (-10 ≤ calculateScore target candidate ∧ calculateScore target candidate ≤ 100) ∧
    (∀ (l : List LyricResult) (localR embR : LyricResult),
      localR.score = 101 → embR.score = 100 →
      (∀ r ∈ l, r.score = calculateScore target r) →
      ∀ r ∈ l, r.score < localR.score ∧ r.score ≤ embR.score) := by
  refine ⟨calculateScore_bounds target candidate, ?_⟩
  intro l localR embR hloc hemb hscored r hr
  have hb := calculateScore_bounds target r
  rw [hloc, hemb, hscored r hr]
  exact ⟨by omega, hb.2⟩

/-- A target with no aliases and a candidate with no comparable fields:
every scoring component is skipped, so the engine returns 0. -/
def c10song : SongInformation := { title := "t", artists := [], sourceId := "1" }

def blankCandidate : LyricResult := { lyricText := "x", source := "s", score := 0 }

def localExample : LyricResult :=
  { lyricText := "l", source := "Local File", score := 101 }

def embExample : LyricResult :=
  { lyricText := "e", source := "Embedded (ID3)", score := 100 }

theorem calculateScore_blank : calculateScore c10song blankCandidate = 0 := by
  show calculateScoreInternal "t" [] c10song blankCandidate = 0
  simp only [calculateScoreInternal, c10song, blankCandidate]
  rw [if_neg (by decide), if_neg (by decide), if_neg (by decide), if_neg (by decide)]
  norm_num [round_eq]

theorem blank_scored : ∀ r ∈ [blankCandidate], r.score = calculateScore c10song r := by
  intro r hr
  rw [List.mem_singleton] at hr
  subst hr
  exact calculateScore_blank.symm

/-- Witness for C10 at a concrete instance. -/
theorem c10_engine_score_bounds_witness :
    (localExample.score = 101 ∧ embExample.score = 100 ∧
      (∀ r ∈ [blankCandidate], r.score = calculateScore c10song r)) ∧
    (∀ r ∈ [blankCandidate], r.score < localExample.score ∧ r.score ≤ embExample.score) :=
  ⟨⟨rfl, rfl, blank_scored⟩,
    (c10_engine_score_bounds c10song blankCandidate).2 [blankCandidate]
      localExample embExample rfl rfl blank_scored⟩

/-! ## Scoring scenario values (C3) -/

/-- The scoring scenario target. -/
def c3target : SongInformation :=
  { title := "Test Song", artists := ["Test Artist"], album := "Test Album",
    duration := 200000, sourceId := "1" }

/-- The scoring scenario candidate, parameterised by its duration. -/
def c3cand (d : Int) : LyricResult :=
  { lyricText := "", source := "test", score := 0, title := "Test Song",
    artist := "Test Artist", album := "Test Album", duration := d }

theorem c3cand_score_200000 : calculateScore c3target (c3cand 200000) = 100 := by
  show calculateScoreInternal "Test Song" ["Test Artist"] c3target (c3cand 200000) = 100
  simp only [calculateScoreInternal, c3cand, c3target]
  rw [if_pos (by decide), if_pos (by decide), if_pos (by decide), if_pos (by decide)]
  rw [calculateSimilarity_self, calculateSimilarity_self]
  rw [show calculateArtistSimilarity ["Test Artist"] "Test Artist" = 1 from by decide]
  rw [show (((200000 : Int) - 200000).natAbs : Int) = 0 from by decide]
  norm_num [calculateDurationScore, round_eq]

theorem c3cand_score_205000 : calculateScore c3target (c3cand 205000) = 94 := by
  show calculateScoreInternal "Test Song" ["Test Artist"] c3target (c3cand 205000) = 94
  simp only [calculateScoreInternal, c3cand, c3target]
  rw [if_pos (by decide), if_pos (by decide), if_pos (by decide), if_pos (by decide)]
  rw [calculateSimilarity_self, calculateSimilarity_self]
  rw [show calculateArtistSimilarity ["Test Artist"] "Test Artist" = 1 from by decide]
  rw [show (((200000 : Int) - 205000).natAbs : Int) = 5000 from by decide]
  norm_num [calculateDurationScore, round_eq]

theorem c3cand_score_225000 : calculateScore c3target (c3cand 225000) = 80 := by
  show calculateScoreInternal "Test Song" ["Test Artist"] c3target (c3cand 225000) = 80
  simp only [calculateScoreInternal, c3cand, c3target]
  rw [if_pos (by decide), if_pos (by decide), if_pos (by decide), if_pos (by decide)]
  rw [calculateSimilarity_self, calculateSimilarity_self]
  rw [show calculateArtistSimilarity ["Test Artist"] "Test Artist" = 1 from by decide]
  rw [show (((200000 : Int) - 225000).natAbs : Int) = 25000 from by decide]
  norm_num [calculateDurationScore, round_eq]

/-- C3 counterexample: at candidate duration 225000 the scorer does not
return 75 — the duration difference is 25000 ms, which falls in the
`else` bucket of the graduated table (−10), giving 40 + 30 + 20 − 10 =
80. -/
theorem c3_score_225000_ne_75 : calculateScore c3target (c3cand 225000) ≠ 75 := by
  rw [c3cand_score_225000]
  decide

/-- C3 (amended): against the identical candidate the scorer returns
exactly 100, with duration 205000 exactly 94, and with duration 225000
exactly 80 (−10 penalty). -/
theorem c3_scoring_scenario :
    calculateScore c3target (c3cand 200000) = 100 ∧
    calculateScore c3target (c3cand 205000) = 94 ∧
    calculateScore c3target (c3cand 225000) = 80 :=
  ⟨c3cand_score_200000, c3cand_score_205000, c3cand_score_225000⟩

/-! ## Selection controller at the tested streaming scenario (C1) -/

/-- One single-candidate incremental batch of the auto-selection test
(`Infrastructure.test.ts`, `LyricsManager Auto-Selection`). -/
def s6batch (i t : String) (sc : Int) (txt : String) : List LyricResult :=
  [{ lyricText := txt, source := "test", score := sc, id := i, title := t,
     artist := "Artist", duration := 0 }]

/-- The controller state right before the streamed search of the test:
fresh manager, `load` called with `ignoreCache`, no embedded or local
candidates, so the callback starts from empty results and no published
lyrics. -/
def s6state : ManagerState := { currentSongKey := "Test|Test" }

/-- C1 evaluation: streaming candidates with scores 40, 50, 60, 75, 90
through the `onPartial` callback publishes the scores 40, 50, 60, 75
and 90 — the score-40 candidate is auto-selected (the code has no
`score ≤ 45` gate) and the score-90 candidate displaces the published
75 (the code has no `score ≥ 70` lock), contradicting the repository's
own test, which expects none, 50, 60, 75, 75. -/
theorem c1_streaming_no_threshold_no_lock :
    streamTrace "Test|Test" s6state
      [s6batch "1" "Low" 40 "", s6batch "2" "OK" 50 "OK",
       s6batch "3" "Better" 60 "Better", s6batch "4" "Good" 75 "Good",
       s6batch "5" "Best" 90 "Best"] =
      [some "40", some "50", some "60", some "75", some "90"] ∧
    streamTrace "Test|Test" s6state
      [s6batch "1" "Low" 40 "", s6batch "2" "OK" 50 "OK",
       s6batch "3" "Better" 60 "Better", s6batch "4" "Good" 75 "Good",
       s6batch "5" "Best" 90 "Best"] ≠
      [none, some "50", some "60", some "75", some "75"] := by
  constructor
  · decide
  · decide

/-! ## Selection controller with both local and embedded lyrics (C2) -/

/-- A song with embedded lyrics, loaded together with local LRC content
and an empty persistence store. -/
def c2song : SongInformation :=
  { title := "T", artists := ["A"], album := "", lyrics := some "E",
    duration := 0, sourceId := "s" }

/-- C2 evaluation: with both `localFileContent` and embedded lyrics
present and no persisted selection, `loadLyricsForSong` returns from
its embedded-lyrics branch: the candidate published immediately is the
embedded one (source "Embedded (ID3)", score 100), and the result list
does not contain the "Local File" candidate at all — the local-file
branch is unreachable here, although the source's own comments rank it
"Priority 0 - Highest" above embedded. -/
theorem c2_local_file_not_published :
    (loadPhase1 {} c2song { localFileContent := some "L" } 7).retVal = some true ∧
    ((loadPhase1 {} c2song { localFileContent := some "L" } 7).state.currentLyrics.map
      (fun d => (List.lookup "source" d.metadata, List.lookup "score" d.metadata))) =
      some (some "Embedded (ID3)", some "100") ∧
    (loadPhase1 {} c2song { localFileContent := some "L" } 7).state.lastResults.map
      (fun r => r.source) = ["Embedded (ID3)"] := by
  refine ⟨?_, ?_, ?_⟩ <;> decide

/-! ## Enhanced parser rewrite (C6)

The rewritten line text is what `.replace(SYLLABLE_REGEX, '')` keeps,
i.e. the characters not covered by any marker: the slice before the
first marker followed by the inter-marker slices — which are exactly
the syllable texts.  `segsFrom` expresses the kept characters in terms
of a match list, and the lemmas below identify it with both
`removeTs` and the syllable texts. -/

/-- The characters of `suffix` (the input from `pos` on) that are kept
after deleting the matches `ms` (given by absolute position, timestamp
and length). -/
def segsFrom : List (Nat × Nat × Nat) → Nat → List Char → List Char
  | [], _, suffix => suffix
  | (idx, _, len) :: rest, pos, suffix =>
    suffix.take (idx - pos) ++ segsFrom rest (idx + len) (suffix.drop (idx + len - pos))

theorem scanTs_pos_le (o c : Char) :
    ∀ (fuel : Nat) (suffix : List Char) (pos : Nat) (m : Nat × Nat × Nat),
      m ∈ scanTs o c fuel suffix pos → pos ≤ m.1 := by
  intro fuel
  induction fuel with
  | zero => intro suffix pos m h; simp [scanTs] at h
  | succ fuel ih =>
    intro suffix pos m h
    match suffix with
    | [] => simp [scanTs] at h
    | ch :: rest =>
      rw [scanTs] at h
      split at h
      · rename_i t len heq
        rcases List.mem_cons.mp h with rfl | h
        · exact le_refl _
        · have := ih _ _ _ h
          omega
      · have := ih _ _ _ h
        omega

theorem scanTs_chain (o c : Char) :
    ∀ (fuel : Nat) (suffix : List Char) (pos : Nat),
      List.Chain' (fun a b : Nat × Nat × Nat => a.1 + a.2.2 ≤ b.1)
        (scanTs o c fuel suffix pos) := by
  intro fuel
  induction fuel with
  | zero => intro suffix pos; simp [scanTs]
  | succ fuel ih =>
    intro suffix pos
    match suffix with
    | [] => simp [scanTs]
    | ch :: rest =>
      rw [scanTs]
      split
      · rename_i t len heq
        refine List.chain'_cons'.mpr ⟨?_, ih _ _⟩
        intro y hy
        have hmem : y ∈ scanTs o c fuel ((ch :: rest).drop len) (pos + len) :=
          List.mem_of_mem_head? hy
        exact scanTs_pos_le o c fuel _ _ y hmem
      · exact ih _ _

theorem segsFrom_cons (ms : List (Nat × Nat × Nat)) (pos : Nat) (ch : Char)
    (rest : List Char) (hhd : ∀ m ∈ ms.head?, pos + 1 ≤ m.1) :
    segsFrom ms pos (ch :: rest) = ch :: segsFrom ms (pos + 1) rest := by
  match ms with
  | [] => rfl
  | (idx, t, len) :: ms' =>
    have hidx : pos + 1 ≤ idx := hhd (idx, t, len) rfl
    rw [segsFrom, segsFrom]
    rw [show idx - pos = (idx - (pos + 1)) + 1 from by omega,
      show idx + len - pos = (idx + len - (pos + 1)) + 1 from by omega]
    rw [List.take_succ_cons, List.drop_succ_cons, List.cons_append]

theorem removeTs_eq_segsFrom (o c : Char) :
    ∀ (fuel : Nat) (suffix : List Char) (pos : Nat),
      removeTs o c fuel suffix = segsFrom (scanTs o c fuel suffix pos) pos suffix := by
  intro fuel
  induction fuel with
  | zero => intro suffix pos; rfl
  | succ fuel ih =>
    intro suffix pos
    match suffix with
    | [] => rfl
    | ch :: rest =>
      rw [removeTs, scanTs]
      split
      · rename_i t len heq
        rw [segsFrom]
        rw [show pos - pos = 0 from by omega, show pos + len - pos = len from by omega]
        rw [List.take_zero, List.nil_append]
        exact ih _ _
      · rw [segsFrom_cons _ _ _ _ ?_]
        · rw [ih rest (pos + 1)]
        · intro m hm
          exact scanTs_pos_le o c fuel rest (pos + 1) m (List.mem_of_mem_head? hm)

theorem toList_mk (cs : List Char) : (String.mk cs).toList = cs := rfl

theorem segsFrom_eq_texts (cs : List Char) (ls : Int) :
    ∀ (ms' : List (Nat × Nat × Nat)) (m : Nat × Nat × Nat) (pos : Nat),
      pos ≤ m.1 →
      List.Chain' (fun a b : Nat × Nat × Nat => a.1 + a.2.2 ≤ b.1) (m :: ms') →
      segsFrom (m :: ms') pos (cs.drop pos) =
        (cs.drop pos).take (m.1 - pos) ++
          ((buildSyllables (m :: ms') ls cs).map (fun s => s.text.toList)).flatten := by
  intro ms'
  induction ms' with
  | nil =>
    intro m pos hpos _
    obtain ⟨idx, t, len⟩ := m
    rw [segsFrom, segsFrom, buildSyllables, buildSyllables]
    simp only [List.map_cons, List.map_nil, List.flatten_cons, List.flatten_nil,
      List.append_nil, toList_mk]
    rw [List.drop_drop]
    rw [show pos + (idx + len - pos) = idx + len from by simp at hpos ⊢; omega]
    congr 1
    rw [List.take_of_length_le]
    rw [List.length_drop]
  | cons m2 ms'' ih =>
    intro m pos hpos hchain
    obtain ⟨idx, t, len⟩ := m
    obtain ⟨idx2, t2, len2⟩ := m2
    have hlink : idx + len ≤ idx2 := (List.chain'_cons.mp hchain).1
    have hchain2 := (List.chain'_cons.mp hchain).2
    rw [segsFrom]
    rw [List.drop_drop]
    rw [show pos + (idx + len - pos) = idx + len from by simp at hpos ⊢; omega]
    rw [ih (idx2, t2, len2) (idx + len) hlink hchain2]
    rw [buildSyllables]
    simp only [List.map_cons, List.flatten_cons, toList_mk]

theorem buildSyllables_map_startTime (ls : Int) (cs : List Char) :
    ∀ (ms : List (Nat × Nat × Nat)),
      (buildSyllables ms ls cs).map (fun s => s.startTime) =
        ms.map (fun x => (x.2.1 : Int) - ls) := by
  intro ms
  induction ms with
  | nil => rfl
  | cons m ms ih =>
    obtain ⟨idx, t, len⟩ := m
    simp only [buildSyllables, List.map_cons, ih]

theorem buildSyllables_map_duration (ls : Int) (cs : List Char) :
    ∀ (ms' : List (Nat × Nat × Nat)) (m : Nat × Nat × Nat),
      (buildSyllables (m :: ms') ls cs).map (fun s => s.duration) =
        List.zipWith (fun a b : Nat => max 0 ((b : Int) - (a : Int)))
          ((m :: ms').map (fun x => x.2.1)) (ms'.map (fun x => x.2.1)) ++ [0] := by
  intro ms'
  induction ms' with
  | nil =>
    intro m
    obtain ⟨idx, t, len⟩ := m
    rfl
  | cons m2 ms'' ih =>
    intro m
    obtain ⟨idx, t, len⟩ := m
    obtain ⟨idx2, t2, len2⟩ := m2
    rw [buildSyllables]
    simp only [List.map_cons]
    rw [List.zipWith_cons_cons, List.cons_append]
    congr 1
    exact ih (idx2, t2, len2)

/-- C6 (amended): for every line whose text contains syllable markers
(`matchAllFrom` finds `m :: ms'`), the enhanced parser stores one
syllable per marker whose start time is the marker time minus the
line's start time, whose duration is the gap to the next marker clamped
at 0 (the final one 0), and rewrites the line text to the trimmed
concatenation of the text before the first marker and the syllable
texts. -/
theorem c6_enhanced_line_amended (line : LyricsLine) (m : Nat × Nat × Nat)
    (ms' : List (Nat × Nat × Nat))
    (hms : matchAllFrom '<' '>' line.text.toList 0 = m :: ms') :
    ∃ syls, (enhanceLine line).syllables = some syls ∧
      syls.map (fun s => s.startTime) =
        (m :: ms').map (fun x => (x.2.1 : Int) - line.startTime) ∧
      syls.map (fun s => s.duration) =
        List.zipWith (fun a b : Nat => max 0 ((b : Int) - (a : Int)))
          ((m :: ms').map (fun x => x.2.1)) (ms'.map (fun x => x.2.1)) ++ [0] ∧
      (enhanceLine line).text =
        String.mk (trimChars (line.text.toList.take m.1 ++
          (syls.map (fun s => s.text.toList)).flatten)) := by
  have henh : enhanceLine line =
      { line with
        syllables := some (buildSyllables (m :: ms') line.startTime line.text.toList),
        text := String.mk (trimChars (removeAll '<' '>' line.text.toList)) } := by
    simp only [enhanceLine]
    rw [hms]
  refine ⟨buildSyllables (m :: ms') line.startTime line.text.toList,
    by rw [henh], buildSyllables_map_startTime _ _ _,
    buildSyllables_map_duration _ _ _ _, ?_⟩
  rw [henh]
  have hscan : scanTs '<' '>' (line.text.toList.length + 1) line.text.toList 0 =
      m :: ms' := by
    have := hms
    rwa [matchAllFrom, List.drop_zero] at this
  have hchain := scanTs_chain '<' '>' (line.text.toList.length + 1) line.text.toList 0
  rw [hscan] at hchain
  have hrm : removeAll '<' '>' line.text.toList =
      segsFrom (m :: ms') 0 line.text.toList := by
    rw [removeAll, removeTs_eq_segsFrom '<' '>' _ _ 0, hscan]
  have hsegs := segsFrom_eq_texts line.text.toList line.startTime ms' m 0
    (Nat.zero_le _) hchain
  rw [List.drop_zero] at hsegs
  rw [hrm, hsegs, Nat.sub_zero]

/-- C6 counterexample input: text before the first marker ("ab") and a
non-monotone marker pair. -/
def c6input : String := "[00:00.00]ab<00:02.00>cd<00:01.00>ef"

/-- C6 counterexample: on `"[00:00.00]ab<00:02.00>cd<00:01.00>ef"` the
enhanced parser produces one line whose rewritten text is "abcdef",
which is not the concatenation "cdef" of the syllable texts (the "ab"
before the first marker is kept by the rewrite but belongs to no
syllable), and whose first syllable duration is 0, not the gap
1000 − 2000 to the next marker. -/
theorem c6_syllable_rewrite_counterexample :
    (enhParse c6input).lines =
      [⟨0, "abcdef", some [⟨2000, 0, "cd"⟩, ⟨1000, 0, "ef"⟩], 0⟩] ∧
    "abcdef" ≠ String.join ["cd", "ef"] ∧
    (0 : Int) ≠ 1000 - 2000 := by
  refine ⟨?_, ?_, ?_⟩ <;> decide

/-- The line the standard parser hands to the enhanced pass for the
spec's enhanced scenario. -/
def s3line : LyricsLine := ⟨1000, "<00:01.00>He<00:01.50>llo", none, 0⟩

/-- Witness for C6 (amended) at the spec's enhanced scenario. -/
theorem c6_enhanced_line_amended_witness :
    matchAllFrom '<' '>' s3line.text.toList 0 = [(0, 1000, 10), (12, 1500, 10)] ∧
    (∃ syls, (enhanceLine s3line).syllables = some syls ∧
      syls.map (fun s => s.startTime) =
        ([((0 : Nat), (1000 : Nat), (10 : Nat)), (12, 1500, 10)]).map
          (fun x => (x.2.1 : Int) - s3line.startTime) ∧
      syls.map (fun s => s.duration) =
        List.zipWith (fun a b : Nat => max 0 ((b : Int) - (a : Int)))
          (([((0 : Nat), (1000 : Nat), (10 : Nat)), (12, 1500, 10)]).map (fun x => x.2.1))
          (([((12 : Nat), (1500 : Nat), (10 : Nat))]).map (fun x => x.2.1)) ++ [0] ∧
      (enhanceLine s3line).text =
        String.mk (trimChars (s3line.text.toList.take 0 ++
          (syls.map (fun s => s.text.toList)).flatten))) :=
  ⟨by decide,
   c6_enhanced_line_amended s3line (0, 1000, 10) [(12, 1500, 10)] (by decide)⟩

end EchoLyrics
